import Mathlib

/-!
Verification of deb-audit (src/deb-audit.py) against its specification.

The Python program is shallowly embedded: dataclasses become structures,
Python dicts (which preserve insertion order) become association lists over
`String` keys, optional / nullable values become `Option`, and operations
that can raise an uncaught exception (KeyError, AttributeError,
json.JSONDecodeError) return `Option`, with `none` standing for the
propagated exception.  The external Debian version comparator
(`apt_pkg.version_compare`) is an opaque collaborator and is modelled as an
arbitrary function parameter `cmp : String → String → Int`.
-/

namespace DebAudit

/-- Truthiness of an optional Python string: `None` and `""` are falsy. -/
def optFalsy : Option String → Bool
  | none => true
  | some s => s == ""

/-- `Issue` dataclass from deb-audit.py.  The database columns
`fixed_version` and `nodsa` are nullable, hence `Option String`. -/
structure Issue where
  source : String
  issue : String
  description : String
  scope : String
  bug : Int
  fixed_version : Option String
  status : String
  nodsa : Option String
deriving DecidableEq, Repr

/-- `Issue.is_present_in`: `not self.fixed_version or
apt_pkg.version_compare(version, self.fixed_version) < 0`. -/
def Issue.is_present_in (cmp : String → String → Int) (i : Issue) (version : String) : Bool :=
  optFalsy i.fixed_version || decide (cmp version (i.fixed_version.getD "") < 0)

/-- `Issue.is_ignored`: `self.nodsa is not None`. -/
def Issue.is_ignored (i : Issue) : Bool :=
  i.nodsa.isSome

/-- `Summary` dataclass: three lists of issues. -/
structure Summary where
  issues_fixed : List Issue
  issues_present : List Issue
  issues_ignored : List Issue
deriving DecidableEq, Repr

/-- `Summary.from_issues(issues, version=None)`.  The Python loop appends to
three lists left to right; the structural recursion below builds the same
lists in the same order. -/
def Summary.from_issues (cmp : String → String → Int) (version : Option String) :
    List Issue → Summary
  | [] => ⟨[], [], []⟩
  | i :: rest =>
    let s := Summary.from_issues cmp version rest
    if !optFalsy version then
      if i.is_present_in cmp (version.getD "") then
        if i.is_ignored then ⟨s.issues_fixed, s.issues_present, i :: s.issues_ignored⟩
        else ⟨s.issues_fixed, i :: s.issues_present, s.issues_ignored⟩
      else ⟨i :: s.issues_fixed, s.issues_present, s.issues_ignored⟩
    else
      if i.is_ignored then ⟨s.issues_fixed, s.issues_present, i :: s.issues_ignored⟩
      else ⟨s.issues_fixed, i :: s.issues_present, s.issues_ignored⟩

/-- Classification of one issue by `Summary.from_issues`:
`0` = fixed, `1` = present, `2` = ignored. -/
def classifyKind (cmp : String → String → Int) (version : Option String) (i : Issue) : Nat :=
  if !optFalsy version then
    if i.is_present_in cmp (version.getD "") then
      if i.is_ignored then 2 else 1
    else 0
  else
    if i.is_ignored then 2 else 1

/-- Concrete stand-in for the external version comparator, used only to
instantiate witnesses: compares by string length, then lexicographically
on the underlying character lists. -/
def cmpStub : String → String → Int :=
  fun a b =>
    if a = b then 0 else if a.length < b.length then -1 else 1

/-- A concrete issue whose `nodsa` field is the empty string. -/
def issueEmptyNodsa : Issue :=
  { source := "libxml2", issue := "CVE-0000-0001", description := "", scope := "",
    bug := 0, fixed_version := none, status := "", nodsa := some "" }

/-- A concrete issue with a fixed version and no `nodsa` annotation. -/
def issueWithFix : Issue :=
  { source := "libxml2", issue := "CVE-2016-9318", description := "d", scope := "remote",
    bug := 42, fixed_version := some "2.9.4+dfsg1-2", status := "resolved", nodsa := none }

/-- A concrete issue with no fixed version and no `nodsa` annotation. -/
def issueNoFix : Issue :=
  { source := "openssl", issue := "CVE-0000-0002", description := "", scope := "",
    bug := 7, fixed_version := none, status := "open", nodsa := none }

/-- The value of one `<release>-<arch>.source-map.json` file, and of one
in-memory source map: an insertion-ordered mapping from binary package name
to the recorded `(version, source)` pairs. -/
abbrev SourceMapDoc := List (String × List (String × String))

/-- An in-memory issue map: insertion-ordered mapping from source package
name to its issues. -/
abbrev IssueMap := List (String × List Issue)

/-- Lookup in an insertion-ordered association list (Python `d[k]` /
`k in d`, which return/test the unique binding). -/
def alistFind {α : Type} (k : String) : List (String × α) → Option α
  | [] => none
  | (k', v) :: rest => if k' = k then some v else alistFind k rest

/-- Python dict assignment `d[k] = v`: overwrite in place if the key is
bound, otherwise append the new binding at the end. -/
def alistSet {α : Type} (k : String) (v : α) : List (String × α) → List (String × α)
  | [] => [(k, v)]
  | (k', v') :: rest => if k' = k then (k', v) :: rest else (k', v') :: alistSet k v rest

/-- `issue_map.setdefault(issue.source, []).append(issue)`. -/
def addIssue (m : IssueMap) (i : Issue) : IssueMap :=
  match m with
  | [] => [(i.source, [i])]
  | (k, iss) :: rest =>
    if k = i.source then (k, iss ++ [i]) :: rest else (k, iss) :: addIssue rest i

/-- Grouping of a stream of issue records by their `source` field, as done
by `Cache._load` and by the dead issue branch of `Cache.load_missing`. -/
def loadIssueMap (lines : List Issue) : IssueMap :=
  lines.foldl addIssue []

/-- The line sequence `Cache.dump` writes to the issues file: all issue
lists of the map, in map order. -/
def flattenIssues : IssueMap → List Issue
  | [] => []
  | (_, iss) :: rest => iss ++ flattenIssues rest

/-- The on-disk cache as seen through `open`/`json`: `none` = the file is
absent (`FileNotFoundError`); an inner `none` = the line or document exists
but does not parse (`json.JSONDecodeError`, or a record with wrong fields). -/
structure RawCacheFS where
  issuesFile : Option (List (Option Issue))
  sourceMapFiles : String → Option (Option SourceMapDoc)

/-- In-memory fields of a `Cache` object: `_source_maps` and `_issue_map`.
`issue_map` is `Option` because Python initializes `_issue_map` to a dict
but `load_missing` tests it against `None`; `none` models the value `None`,
which no constructor path ever produces. -/
structure CacheState where
  source_maps : List (String × SourceMapDoc)
  issue_map : Option IssueMap
deriving DecidableEq, Repr

/-- Parsing of the issues file, line by line; the first unparseable line
raises, discarding everything (`none`). -/
def sequenceLines : List (Option Issue) → Option (List Issue)
  | [] => some []
  | none :: _ => none
  | some i :: rest => (sequenceLines rest).map (fun l => i :: l)

/-- Reading the issues file in `Cache._load`: an absent file is treated as
an empty issue list (`except FileNotFoundError: pass`). -/
def parseIssuesFile : Option (List (Option Issue)) → Option (List Issue)
  | none => some []
  | some lines => sequenceLines lines

/-- The comprehension `[(version, source) for version, source in versions]`
applied to every package of a deserialized source-map document. -/
def tupelizeDoc (doc : SourceMapDoc) : SourceMapDoc :=
  doc.map (fun p => (p.1, p.2.map (fun vs => (vs.1, vs.2))))

/-- The source-map half of `Cache._load`: iterate the architectures, skip
absent files, abort on an unparseable one, and bind parsed documents into
`_source_maps`. -/
def loadSourceMaps (fs : RawCacheFS) :
    List String → List (String × SourceMapDoc) → Option (List (String × SourceMapDoc))
  | [], sm => some sm
  | arch :: rest, sm =>
    match fs.sourceMapFiles arch with
    | none => loadSourceMaps fs rest sm
    | some none => none
    | some (some doc) => loadSourceMaps fs rest (alistSet arch (tupelizeDoc doc) sm)

/-- `Cache._load` (also the constructor, which only calls `_load`): read the
issues file and the per-architecture source maps; `none` is a propagated
deserialization error (the spec's `CacheCorrupt`). -/
def Cache.load (fs : RawCacheFS) (archs : List String) : Option CacheState :=
  match parseIssuesFile fs.issuesFile with
  | none => none
  | some lines =>
    match loadSourceMaps fs archs [] with
    | none => none
    | some sms => some { source_maps := sms, issue_map := some (loadIssueMap lines) }

/-- `Cache.dump`: writes one source-map document per architecture and the
issue map as one record per line.  `none` models the exceptions raised when
an architecture is missing from `_source_maps` (KeyError) or `_issue_map`
is `None` (AttributeError); the result collapses the partial writes those
raises would leave behind, which the round-trip property does not visit. -/
def Cache.dump (st : CacheState) (archs : List String) : Option RawCacheFS :=
  match st.issue_map with
  | none => none
  | some im =>
    if archs.all (fun a => (alistFind a st.source_maps).isSome) then
      some { issuesFile := some ((flattenIssues im).map some),
             sourceMapFiles := fun a =>
               if a ∈ archs then (alistFind a st.source_maps).map some else none }
    else none

/-- The Remote Fetcher: the result rows of `fetch_source_map` per
architecture, already grouped, and the rows of `fetch_issues`. -/
structure Fetcher where
  sourceMap : String → SourceMapDoc
  issues : List Issue

/-- The architecture loop of `Cache.load_missing`: fetch the source map of
every architecture not yet in `_source_maps`. -/
def loadMissingSourceMaps (f : Fetcher) :
    List String → List (String × SourceMapDoc) → List (String × SourceMapDoc)
  | [], sm => sm
  | arch :: rest, sm =>
    loadMissingSourceMaps f rest
      (if (alistFind arch sm).isSome then sm else alistSet arch (f.sourceMap arch) sm)

/-- `Cache.load_missing`: note the issue branch runs only under
`self._issue_map is None`, i.e. only when `issue_map = none`. -/
def Cache.load_missing (st : CacheState) (archs : List String) (f : Fetcher) : CacheState :=
  { source_maps := loadMissingSourceMaps f archs st.source_maps,
    issue_map :=
      match st.issue_map with
      | none => some (loadIssueMap f.issues)
      | some m => some m }

/-- `os.path.exists` and `os.path.getmtime` as seen by the cache. -/
structure DiskInfo where
  fileExists : String → Bool
  mtime : String → Int

/-- `Cache._issue_cache`. -/
def Cache.issue_cache (directory release : String) : String :=
  directory ++ "/" ++ release ++ "-issues.json"

/-- `Cache._source_map_cache`. -/
def Cache.source_map_cache (directory release arch : String) : String :=
  directory ++ "/" ++ release ++ "-" ++ arch ++ ".source-map.json"

/-- `Cache._cache_files`. -/
def Cache.cache_files (directory release : String) (archs : List String) : List String :=
  archs.map (Cache.source_map_cache directory release) ++ [Cache.issue_cache directory release]

/-- `Cache.is_complete`. -/
def Cache.is_complete (d : DiskInfo) (directory release : String) (archs : List String) : Bool :=
  (Cache.cache_files directory release archs).all d.fileExists

/-- Python `min` over a list, raising on an empty one. -/
def listMin : List Int → Option Int
  | [] => none
  | x :: xs => some (xs.foldl min x)

/-- `Cache.last_updated`. -/
def Cache.last_updated (d : DiskInfo) (directory release : String) (archs : List String) :
    Option Int :=
  if Cache.is_complete d directory release archs then
    listMin ((Cache.cache_files directory release archs).map d.mtime)
  else none

/-- `Package` dataclass. -/
structure Package where
  name : String
  version : String
  architecture : String
deriving DecidableEq, Repr

/-- One line printed to stdout by `Checker.run`. -/
inductive ReportLine where
  | unknownPkg (release : String) (pkg : Package)
  | pkgSummary (pkg : Package) (n_present n_ignored n_fixed : Nat)
deriving DecidableEq, Repr

/-- Accumulator of the audit loop in `Checker.run`: `total_present`,
`total_unknown`, and the stdout lines printed so far. -/
structure AuditAcc where
  total_present : Nat
  total_unknown : Nat
  output : List ReportLine
deriving DecidableEq, Repr

/-- `Cache.issues` gathering step: concatenate `_issue_map.get(source, [])`
over the source names.  Python iterates a set here, in unspecified order;
the counts the checker derives are order-independent. -/
def gatherIssues (im : IssueMap) : List String → List Issue
  | [] => []
  | s :: rest => (alistFind s im).getD [] ++ gatherIssues im rest

/-- The per-package loop of `Checker.run`.  `none` models the KeyError
raised when a package's architecture has no entry in `_source_maps`. -/
def Checker.audit (cmp : String → String → Int) (release : String) (show_all : Bool)
    (sm : List (String × SourceMapDoc)) (im : IssueMap) :
    List Package → AuditAcc → Option AuditAcc
  | [], acc => some acc
  | pkg :: rest, acc =>
    match alistFind pkg.architecture sm with
    | none => none
    | some pmap =>
      match alistFind pkg.name pmap with
      | none =>
        Checker.audit cmp release show_all sm im rest
          { total_present := acc.total_present,
            total_unknown := acc.total_unknown + 1,
            output := acc.output ++ [ReportLine.unknownPkg release pkg] }
      | some versions =>
        let sources := (versions.map Prod.snd).dedup
        let summary := Summary.from_issues cmp (some pkg.version) (gatherIssues im sources)
        let n_present := summary.issues_present.length
        let n_ignored := summary.issues_ignored.length
        let n_fixed := summary.issues_fixed.length
        Checker.audit cmp release show_all sm im rest
          { total_present := acc.total_present + n_present,
            total_unknown := acc.total_unknown,
            output :=
              if show_all || decide (0 < n_present) then
                acc.output ++ [ReportLine.pkgSummary pkg n_present n_ignored n_fixed]
              else acc.output }

/-- The final verdict of `Checker.run` from the accumulated totals. -/
def Checker.verdict (acc : AuditAcc) : Bool :=
  if acc.total_present > 0 then false
  else if acc.total_unknown > 0 then false
  else true

/-- `Checker.run` after the cache phase: audit all packages, then decide. -/
def Checker.run (cmp : String → String → Int) (release : String) (show_all : Bool)
    (sm : List (String × SourceMapDoc)) (im : IssueMap) (packages : List Package) :
    Option Bool :=
  (Checker.audit cmp release show_all sm im packages ⟨0, 0, []⟩).map Checker.verdict

/-- `main`: `sys.exit(0)` when `checker.run()` is truthy, `sys.exit(1)`
otherwise. -/
def mainExitCode (b : Bool) : Nat :=
  if b then 0 else 1

/-- The cache-resolution phase of `Checker.run`: construct the `Cache`
(which runs `_load`), then either use the complete cache or call
`load_missing`; `none` is an exception propagating out of the run. -/
def Checker.resolve_cache (fs : RawCacheFS) (d : DiskInfo) (directory release : String)
    (archs : List String) (f : Fetcher) : Option CacheState :=
  match Cache.load fs archs with
  | none => none
  | some st =>
    if Cache.is_complete d directory release archs then some st
    else some (Cache.load_missing st archs f)

/-- A filesystem with no cache files at all. -/
def fsEmpty : RawCacheFS :=
  { issuesFile := none, sourceMapFiles := fun _ => none }

/-- A filesystem whose issues file exists but has one unparseable line. -/
def fsCorrupt : RawCacheFS :=
  { issuesFile := some [none], sourceMapFiles := fun _ => none }

/-- A fetcher holding one source-map row and one issue. -/
def fetcherSample : Fetcher :=
  { sourceMap := fun _ => [("libxml2-utils", [("2.9.4+dfsg1-1", "libxml2")])],
    issues := [issueWithFix] }

/-- A disk on which every file exists with modification time 5. -/
def diskAll : DiskInfo :=
  { fileExists := fun _ => true, mtime := fun _ => 5 }

/-- A concrete in-memory cache state used to instantiate witnesses. -/
def stSample : CacheState :=
  { source_maps := [("amd64", [("libxml2-utils", [("2.9.4+dfsg1-1", "libxml2")])])],
    issue_map := some [("libxml2", [issueWithFix])] }

/-- A concrete scanned package not present in `stSample`. -/
def pkgUnknown : Package :=
  { name := "foopkg", version := "1.0", architecture := "amd64" }

theorem from_issues_eq_filter (cmp : String → String → Int) (version : Option String)
    (issues : List Issue) :
    Summary.from_issues cmp version issues =
      ⟨issues.filter (fun i => classifyKind cmp version i == 0),
       issues.filter (fun i => classifyKind cmp version i == 1),
       issues.filter (fun i => classifyKind cmp version i == 2)⟩ := by
  induction issues with
  | nil => rfl
  | cons i rest ih =>
    simp only [Summary.from_issues, ih, classifyKind, List.filter_cons]
    by_cases hv : optFalsy version = true <;>
      by_cases hp : i.is_present_in cmp (version.getD "") = true <;>
      by_cases hig : i.is_ignored = true <;>
      simp [hv, hp, hig]

theorem classifyKind_lt_three (cmp : String → String → Int) (version : Option String)
    (i : Issue) : classifyKind cmp version i < 3 := by
  unfold classifyKind
  split <;> split <;> first | omega | (split <;> omega)

theorem count_filter_of_neg {p : Issue → Bool} {i : Issue} (l : List Issue) (h : p i = false) :
    (l.filter p).count i = 0 := by
  rw [List.count_eq_zero]
  intro hm
  rw [List.mem_filter] at hm
  rw [hm.2] at h
  exact Bool.noConfusion h

/-- C2: `is_present_in(v)` is true iff `fixed_version` is absent/empty, or the
version comparison of `v` against `fixed_version` yields LESS; in particular,
an issue with absent `fixed_version` is present in every version. -/
theorem is_present_in_spec (cmp : String → String → Int) (i : Issue) (v : String) :
    (i.is_present_in cmp v = true ↔
      (optFalsy i.fixed_version = true ∨ ∃ f, i.fixed_version = some f ∧ cmp v f < 0)) ∧
    (i.fixed_version = none → i.is_present_in cmp v = true) := by
  constructor
  · cases h : i.fixed_version with
    | none => simp [Issue.is_present_in, optFalsy, h]
    | some s =>
      by_cases hs : s = "" <;> simp [Issue.is_present_in, optFalsy, h, hs]
  · intro h
    simp [Issue.is_present_in, optFalsy, h]

/-- Witness for C2 at a concrete issue and version. -/
theorem is_present_in_spec_witness :
    issueNoFix.fixed_version = none ∧ issueNoFix.is_present_in cmpStub "1.0" = true :=
  ⟨rfl, (is_present_in_spec cmpStub issueNoFix "1.0").2 rfl⟩

/-- C3 counterexample: on an issue whose `nodsa` is the empty string,
`is_ignored` returns true although `nodsa` is not "non-null and non-empty",
refuting the claim as stated. -/
theorem is_ignored_nonempty_claim_false :
    ¬ (issueEmptyNodsa.is_ignored = true ↔
        (issueEmptyNodsa.nodsa ≠ none ∧ issueEmptyNodsa.nodsa ≠ some "")) := by
  decide

/-- C3 amended: `is_ignored()` returns true iff `nodsa` is non-null — an
empty-string `nodsa` still counts as present.  The function takes no version
argument, so the result is independent of any version by construction. -/
theorem is_ignored_iff_nodsa_present (i : Issue) :
    i.is_ignored = true ↔ i.nodsa ≠ none := by
  cases h : i.nodsa <;> simp [Issue.is_ignored, h]

/-- Witness for the amended C3 at a concrete issue. -/
theorem is_ignored_iff_nodsa_present_witness : issueEmptyNodsa.is_ignored = true :=
  (is_ignored_iff_nodsa_present issueEmptyNodsa).mpr (by decide)

/-- C7: `Summary.from_issues` partitions its input: per-element counts over
the three lists sum to the input count, membership in the union coincides
with membership in the input, and the three lists are pairwise disjoint. -/
theorem summary_partitions (cmp : String → String → Int) (version : Option String)
    (issues : List Issue) :
    (∀ i : Issue,
      (Summary.from_issues cmp version issues).issues_fixed.count i
        + (Summary.from_issues cmp version issues).issues_present.count i
        + (Summary.from_issues cmp version issues).issues_ignored.count i
        = issues.count i) ∧
    (∀ i : Issue, i ∈ issues ↔
      (i ∈ (Summary.from_issues cmp version issues).issues_fixed ∨
       i ∈ (Summary.from_issues cmp version issues).issues_present ∨
       i ∈ (Summary.from_issues cmp version issues).issues_ignored)) ∧
    (∀ i : Issue, ¬(i ∈ (Summary.from_issues cmp version issues).issues_fixed ∧
        i ∈ (Summary.from_issues cmp version issues).issues_present)) ∧
    (∀ i : Issue, ¬(i ∈ (Summary.from_issues cmp version issues).issues_fixed ∧
        i ∈ (Summary.from_issues cmp version issues).issues_ignored)) ∧
    (∀ i : Issue, ¬(i ∈ (Summary.from_issues cmp version issues).issues_present ∧
        i ∈ (Summary.from_issues cmp version issues).issues_ignored)) := by
  rw [from_issues_eq_filter]
  dsimp only
  refine ⟨?_, ?_, ?_, ?_, ?_⟩
  · intro i
    have hlt := classifyKind_lt_three cmp version i
    interval_cases h : classifyKind cmp version i
    · have c0 : (issues.filter (fun j => classifyKind cmp version j == 0)).count i
          = issues.count i := List.count_filter (by simp [h])
      have c1 : (issues.filter (fun j => classifyKind cmp version j == 1)).count i = 0 :=
        count_filter_of_neg _ (by simp [h])
      have c2 : (issues.filter (fun j => classifyKind cmp version j == 2)).count i = 0 :=
        count_filter_of_neg _ (by simp [h])
      rw [c0, c1, c2]
      omega
    · have c0 : (issues.filter (fun j => classifyKind cmp version j == 0)).count i = 0 :=
        count_filter_of_neg _ (by simp [h])
      have c1 : (issues.filter (fun j => classifyKind cmp version j == 1)).count i
          = issues.count i := List.count_filter (by simp [h])
      have c2 : (issues.filter (fun j => classifyKind cmp version j == 2)).count i = 0 :=
        count_filter_of_neg _ (by simp [h])
      rw [c0, c1, c2]
      omega
    · have c0 : (issues.filter (fun j => classifyKind cmp version j == 0)).count i = 0 :=
        count_filter_of_neg _ (by simp [h])
      have c1 : (issues.filter (fun j => classifyKind cmp version j == 1)).count i = 0 :=
        count_filter_of_neg _ (by simp [h])
      have c2 : (issues.filter (fun j => classifyKind cmp version j == 2)).count i
          = issues.count i := List.count_filter (by simp [h])
      rw [c0, c1, c2]
      omega
  · intro i
    have hlt := classifyKind_lt_three cmp version i
    simp only [List.mem_filter]
    constructor
    · intro hm
      interval_cases h : classifyKind cmp version i
      · exact Or.inl ⟨hm, by simp [h]⟩
      · exact Or.inr (Or.inl ⟨hm, by simp [h]⟩)
      · exact Or.inr (Or.inr ⟨hm, by simp [h]⟩)
    · rintro (⟨hm, _⟩ | ⟨hm, _⟩ | ⟨hm, _⟩) <;> exact hm
  · rintro i ⟨h0, h1⟩
    rw [List.mem_filter] at h0 h1
    have e0 := h0.2
    have e1 := h1.2
    simp only [beq_iff_eq] at e0 e1
    omega
  · rintro i ⟨h0, h2⟩
    rw [List.mem_filter] at h0 h2
    have e0 := h0.2
    have e2 := h2.2
    simp only [beq_iff_eq] at e0 e2
    omega
  · rintro i ⟨h1, h2⟩
    rw [List.mem_filter] at h1 h2
    have e1 := h1.2
    have e2 := h2.2
    simp only [beq_iff_eq] at e1 e2
    omega

/-- Witness for C7 at a concrete issue list and version. -/
theorem summary_partitions_witness :
    (Summary.from_issues cmpStub (some "1.0") [issueWithFix, issueNoFix]).issues_fixed.count
        issueNoFix
      + (Summary.from_issues cmpStub (some "1.0") [issueWithFix, issueNoFix]).issues_present.count
          issueNoFix
      + (Summary.from_issues cmpStub (some "1.0") [issueWithFix, issueNoFix]).issues_ignored.count
          issueNoFix
      = ([issueWithFix, issueNoFix].count issueNoFix) :=
  (summary_partitions cmpStub (some "1.0") [issueWithFix, issueNoFix]).1 issueNoFix

/-- C10: with an absent or empty version, the `fixed` list is empty and each
issue is classified solely by `is_ignored`: it lands in `ignored` iff
`is_ignored()` is true, otherwise in `present`, regardless of its
`fixed_version`. -/
theorem from_issues_falsy_version (cmp : String → String → Int) (version : Option String)
    (issues : List Issue) (h : optFalsy version = true) :
    Summary.from_issues cmp version issues =
      ⟨[], issues.filter (fun i => !i.is_ignored), issues.filter (fun i => i.is_ignored)⟩ := by
  rw [from_issues_eq_filter]
  have hclass : ∀ i : Issue, classifyKind cmp version i = if i.is_ignored then 2 else 1 := by
    intro i
    simp [classifyKind, h]
  simp only [Summary.mk.injEq]
  refine ⟨?_, ?_, ?_⟩
  · rw [List.filter_eq_nil_iff]
    intro i _
    rw [hclass i]
    cases hig : i.is_ignored <;> simp
  · apply List.filter_congr
    intro i _
    rw [hclass i]
    cases hig : i.is_ignored <;> simp
  · apply List.filter_congr
    intro i _
    rw [hclass i]
    cases hig : i.is_ignored <;> simp

/-- Witness for C10 at a concrete issue list and absent version. -/
theorem from_issues_falsy_version_witness :
    Summary.from_issues cmpStub none [issueWithFix, issueEmptyNodsa] =
      ⟨[], [issueWithFix], [issueEmptyNodsa]⟩ := by
  rw [from_issues_falsy_version cmpStub none [issueWithFix, issueEmptyNodsa] rfl]
  decide

/-- C1 (code bug): on an empty cache directory, constructing the cache
(`_load`) yields an empty — not `None` — issue map, so `load_missing`'s
`if self._issue_map is None` guard never fires: the fetcher's issues are
never loaded and the in-memory issue catalog stays empty, although the
source map of the missing architecture is populated and the fetcher has a
non-empty issue list the catalog should have received. -/
theorem load_missing_never_fetches_issues :
    Cache.load fsEmpty ["amd64"] = some { source_maps := [], issue_map := some [] } ∧
    (Cache.load_missing { source_maps := [], issue_map := some [] } ["amd64"]
        fetcherSample).issue_map = some [] ∧
    (Cache.load_missing { source_maps := [], issue_map := some [] } ["amd64"]
        fetcherSample).source_maps = [("amd64", fetcherSample.sourceMap "amd64")] ∧
    loadIssueMap fetcherSample.issues = [("libxml2", [issueWithFix])] := by
  refine ⟨rfl, rfl, rfl, rfl⟩

/-- C4: when the audit loop completes, `Checker.run` returns true iff the
total count of present issues and the total count of unknown packages are
both zero, and `main` exits 0 in exactly that case and 1 otherwise. -/
theorem checker_verdict_spec (cmp : String → String → Int) (release : String)
    (show_all : Bool) (sm : List (String × SourceMapDoc)) (im : IssueMap)
    (packages : List Package) (acc : AuditAcc)
    (h : Checker.audit cmp release show_all sm im packages ⟨0, 0, []⟩ = some acc) :
    Checker.run cmp release show_all sm im packages = some (Checker.verdict acc) ∧
    (Checker.verdict acc = true ↔ (acc.total_present = 0 ∧ acc.total_unknown = 0)) ∧
    mainExitCode (Checker.verdict acc) =
      (if acc.total_present = 0 ∧ acc.total_unknown = 0 then 0 else 1) := by
  refine ⟨by rw [Checker.run, h]; rfl, ?_, ?_⟩
  · unfold Checker.verdict
    by_cases h1 : acc.total_present = 0 <;> by_cases h2 : acc.total_unknown = 0 <;>
      simp [h1, h2]
  · unfold mainExitCode Checker.verdict
    by_cases h1 : acc.total_present = 0 <;> by_cases h2 : acc.total_unknown = 0 <;>
      simp [h1, h2]

/-- Witness for C4: an audit of no packages succeeds with exit code 0. -/
theorem checker_verdict_spec_witness :
    Checker.run cmpStub "buster" false [] [] [] = some true ∧
    mainExitCode true = 0 := by
  have h := checker_verdict_spec cmpStub "buster" false [] [] [] ⟨0, 0, []⟩ rfl
  exact ⟨h.1, rfl⟩

/-- C5: a package whose architecture has a source map that lacks the
package name is not fatal: the loop records one `unknown` report line,
increments the unknown total by exactly one, leaves the present total
unchanged, and continues with the remaining packages. -/
theorem audit_unknown_package_step (cmp : String → String → Int) (release : String)
    (show_all : Bool) (sm : List (String × SourceMapDoc)) (im : IssueMap)
    (pkg : Package) (rest : List Package) (acc : AuditAcc) (pmap : SourceMapDoc)
    (harch : alistFind pkg.architecture sm = some pmap)
    (hunk : alistFind pkg.name pmap = none) :
    Checker.audit cmp release show_all sm im (pkg :: rest) acc =
      Checker.audit cmp release show_all sm im rest
        { total_present := acc.total_present,
          total_unknown := acc.total_unknown + 1,
          output := acc.output ++ [ReportLine.unknownPkg release pkg] } := by
  simp only [Checker.audit, harch, hunk]

/-- Witness for C5: auditing the unknown package `foopkg` alone yields one
unknown report and totals (present, unknown) = (0, 1). -/
theorem audit_unknown_package_step_witness :
    Checker.audit cmpStub "buster" false [("amd64", [])] [] [pkgUnknown] ⟨0, 0, []⟩ =
      some ⟨0, 1, [ReportLine.unknownPkg "buster" pkgUnknown]⟩ := by
  rw [audit_unknown_package_step cmpStub "buster" false [("amd64", [])] [] pkgUnknown []
    ⟨0, 0, []⟩ [] (by decide) rfl]
  rfl

theorem listMin_spec (xs : List Int) :
    ∀ x : Int, ∃ m, listMin (x :: xs) = some m ∧ m ∈ x :: xs ∧ ∀ y ∈ x :: xs, m ≤ y := by
  induction xs with
  | nil =>
    intro x
    exact ⟨x, rfl, by simp, by simp⟩
  | cons y ys ih =>
    intro x
    obtain ⟨m, hm, hmem, hle⟩ := ih (min x y)
    refine ⟨m, ?_, ?_, ?_⟩
    · simpa [listMin] using hm
    · rcases List.mem_cons.mp hmem with h | h
      · rcases min_cases x y with ⟨he, _⟩ | ⟨he, _⟩ <;> rw [h, he] <;> simp
      · simp [h]
    · intro z hz
      have hmle : m ≤ min x y := hle (min x y) (by simp)
      rcases List.mem_cons.mp hz with h1 | hz'
      · rw [h1]; exact le_trans hmle (min_le_left x y)
      rcases List.mem_cons.mp hz' with h2 | hz''
      · rw [h2]; exact le_trans hmle (min_le_right x y)
      · exact hle z (by simp [hz''])

/-- C8: `is_complete` is true iff the issue-list file and every requested
architecture's source-map file exist; `last_updated` is absent when the
cache is incomplete, and otherwise is the earliest modification time among
the cache files. -/
theorem cache_completeness_spec (d : DiskInfo) (directory release : String)
    (archs : List String) :
    (Cache.is_complete d directory release archs = true ↔
      (d.fileExists (Cache.issue_cache directory release) = true ∧
        ∀ a ∈ archs, d.fileExists (Cache.source_map_cache directory release a) = true)) ∧
    (Cache.is_complete d directory release archs = false →
      Cache.last_updated d directory release archs = none) ∧
    (Cache.is_complete d directory release archs = true →
      ∃ m, Cache.last_updated d directory release archs = some m ∧
        m ∈ (Cache.cache_files directory release archs).map d.mtime ∧
        ∀ fn ∈ Cache.cache_files directory release archs, m ≤ d.mtime fn) := by
  refine ⟨?_, ?_, ?_⟩
  · rw [Cache.is_complete, List.all_eq_true]
    constructor
    · intro h
      refine ⟨h _ ?_, fun a ha => h _ ?_⟩
      · simp [Cache.cache_files]
      · simp only [Cache.cache_files, List.mem_append, List.mem_map]
        exact Or.inl ⟨a, ha, rfl⟩
    · rintro ⟨hi, hs⟩ fn hfn
      simp only [Cache.cache_files, List.mem_append, List.mem_map,
        List.mem_singleton] at hfn
      rcases hfn with ⟨a, ha, rfl⟩ | rfl
      · exact hs a ha
      · exact hi
  · intro h
    rw [Cache.last_updated, h]
    simp
  · intro h
    rw [Cache.last_updated, h]
    simp only [if_true]
    have hne : (Cache.cache_files directory release archs).map d.mtime ≠ [] := by
      simp [Cache.cache_files]
    obtain ⟨x, xs, hx⟩ := List.exists_cons_of_ne_nil hne
    obtain ⟨m, hm, hmem, hle⟩ := listMin_spec xs x
    refine ⟨m, by rw [hx]; exact hm, by rw [hx]; exact hmem, ?_⟩
    intro fn hfn
    exact hle (d.mtime fn) (by rw [← hx]; exact List.mem_map_of_mem d.mtime hfn)

/-- Witness for C8 on a one-architecture cache over a disk where every file
exists with modification time 5. -/
theorem cache_completeness_spec_witness :
    Cache.is_complete diskAll "cachedir" "buster" ["amd64"] = true ∧
    ∃ m, Cache.last_updated diskAll "cachedir" "buster" ["amd64"] = some m ∧
      m ∈ (Cache.cache_files "cachedir" "buster" ["amd64"]).map diskAll.mtime ∧
      ∀ fn ∈ Cache.cache_files "cachedir" "buster" ["amd64"], m ≤ diskAll.mtime fn := by
  have hc : Cache.is_complete diskAll "cachedir" "buster" ["amd64"] = true :=
    (cache_completeness_spec diskAll "cachedir" "buster" ["amd64"]).1.mpr
      ⟨rfl, by intro a _; rfl⟩
  exact ⟨hc, (cache_completeness_spec diskAll "cachedir" "buster" ["amd64"]).2.2 hc⟩

theorem sequenceLines_of_mem_none (lines : List (Option Issue)) (h : none ∈ lines) :
    sequenceLines lines = none := by
  induction lines with
  | nil => simp at h
  | cons l rest ih =>
    cases l with
    | none => rfl
    | some i =>
      have : none ∈ rest := by
        rcases List.mem_cons.mp h with hh | hh
        · exact absurd hh (by simp)
        · exact hh
      simp [sequenceLines, ih this]

theorem loadSourceMaps_corrupt (fs : RawCacheFS) :
    ∀ (archs : List String) (sm0 : List (String × SourceMapDoc)) (a : String),
      a ∈ archs → fs.sourceMapFiles a = some none →
      loadSourceMaps fs archs sm0 = none := by
  intro archs
  induction archs with
  | nil => intro _ a ha _; simp at ha
  | cons arch rest ih =>
    intro sm0 a ha hcor
    rcases List.mem_cons.mp ha with rfl | ha'
    · simp [loadSourceMaps, hcor]
    · cases hf : fs.sourceMapFiles arch with
      | none => simpa [loadSourceMaps, hf] using ih sm0 a ha' hcor
      | some doc =>
        cases doc with
        | none => simp [loadSourceMaps, hf]
        | some d => simpa [loadSourceMaps, hf] using ih _ a ha' hcor

/-- C9: if a cache file exists but cannot be parsed — an issues-file line
that is not a valid record, or a source-map file that is not a single valid
document — then `_load` fails and the cache-resolution phase of the run
aborts instead of treating the release as uncached. -/
theorem cache_load_corrupt_aborts (fs : RawCacheFS) (archs : List String)
    (d : DiskInfo) (directory release : String) (f : Fetcher)
    (h : (∃ lines, fs.issuesFile = some lines ∧ none ∈ lines) ∨
         (∃ a ∈ archs, fs.sourceMapFiles a = some none)) :
    Cache.load fs archs = none ∧
    Checker.resolve_cache fs d directory release archs f = none := by
  have hload : Cache.load fs archs = none := by
    rcases h with ⟨lines, hl, hn⟩ | ⟨a, ha, hcor⟩
    · rw [Cache.load, hl]
      simp [parseIssuesFile, sequenceLines_of_mem_none lines hn]
    · rw [Cache.load]
      cases hp : parseIssuesFile fs.issuesFile with
      | none => rfl
      | some lines => simp [loadSourceMaps_corrupt fs archs [] a ha hcor]
  refine ⟨hload, ?_⟩
  rw [Checker.resolve_cache, hload]

/-- Witness for C9: a one-line issues file whose line does not parse makes
both the load and the run's cache resolution fail. -/
theorem cache_load_corrupt_aborts_witness :
    Cache.load fsCorrupt ["amd64"] = none ∧
    Checker.resolve_cache fsCorrupt diskAll "cachedir" "buster" ["amd64"]
      fetcherSample = none :=
  cache_load_corrupt_aborts fsCorrupt ["amd64"] diskAll "cachedir" "buster" fetcherSample
    (Or.inl ⟨[none], rfl, by simp⟩)

theorem alistFind_alistSet {α : Type} (k k' : String) (v : α) (m : List (String × α)) :
    alistFind k' (alistSet k v m) = if k = k' then some v else alistFind k' m := by
  induction m with
  | nil => simp [alistSet, alistFind]
  | cons p rest ih =>
    obtain ⟨k'', v''⟩ := p
    by_cases h : k'' = k
    · subst h
      by_cases h' : k'' = k' <;> simp [alistSet, alistFind, h']
    · rw [alistSet, if_neg h]
      by_cases h' : k'' = k'
      · have hkk : ¬ k = k' := fun hh => h (h'.trans hh.symm)
        simp [alistFind, h', hkk]
      · simp [alistFind, h', ih]

theorem tupelizeDoc_id (doc : SourceMapDoc) : tupelizeDoc doc = doc := by
  simp [tupelizeDoc]

theorem sequenceLines_map_some (l : List Issue) : sequenceLines (l.map some) = some l := by
  induction l with
  | nil => rfl
  | cons i rest ih => simp [sequenceLines, ih]

theorem addIssue_cons_ne (k : String) (iss : List Issue) (m : IssueMap) (i : Issue)
    (h : i.source ≠ k) : addIssue ((k, iss) :: m) i = (k, iss) :: addIssue m i := by
  have hk : ¬ k = i.source := fun hh => h hh.symm
  simp [addIssue, hk]

theorem foldl_addIssue_skip (lines : List Issue) :
    ∀ (k : String) (iss : List Issue) (m : IssueMap),
      (∀ i ∈ lines, i.source ≠ k) →
      lines.foldl addIssue ((k, iss) :: m) = (k, iss) :: lines.foldl addIssue m := by
  induction lines with
  | nil => intro k iss m _; rfl
  | cons i rest ih =>
    intro k iss m h
    rw [List.foldl_cons, addIssue_cons_ne k iss m i (h i (by simp)), List.foldl_cons]
    exact ih k iss (addIssue m i) (fun j hj => h j (by simp [hj]))

theorem foldl_addIssue_block (iss : List Issue) :
    ∀ (k : String) (acc : List Issue) (m : IssueMap),
      (∀ i ∈ iss, i.source = k) →
      iss.foldl addIssue ((k, acc) :: m) = (k, acc ++ iss) :: m := by
  induction iss with
  | nil => intro k acc m _; simp
  | cons i rest ih =>
    intro k acc m h
    have hi : i.source = k := h i (by simp)
    rw [List.foldl_cons]
    have hstep : addIssue ((k, acc) :: m) i = (k, acc ++ [i]) :: m := by
      simp [addIssue, hi]
    rw [hstep, ih k (acc ++ [i]) m (fun j hj => h j (by simp [hj]))]
    simp

theorem mem_flattenIssues (m : IssueMap) (i : Issue) :
    i ∈ flattenIssues m → ∃ p ∈ m, i ∈ p.2 := by
  induction m with
  | nil => intro h; simp [flattenIssues] at h
  | cons p rest ih =>
    intro h
    rw [flattenIssues, List.mem_append] at h
    rcases h with h | h
    · exact ⟨p, by simp, h⟩
    · obtain ⟨q, hq, hiq⟩ := ih h
      exact ⟨q, by simp [hq], hiq⟩

theorem loadIssueMap_flattenIssues (m : IssueMap)
    (hnodup : (m.map Prod.fst).Nodup)
    (hne : ∀ p ∈ m, p.2 ≠ [])
    (hsrc : ∀ p ∈ m, ∀ i ∈ p.2, i.source = p.1) :
    loadIssueMap (flattenIssues m) = m := by
  induction m with
  | nil => rfl
  | cons p rest ih =>
    obtain ⟨k, iss⟩ := p
    have hknotin : k ∉ rest.map Prod.fst := (List.nodup_cons.mp hnodup).1
    have hrestnodup : (rest.map Prod.fst).Nodup := (List.nodup_cons.mp hnodup).2
    obtain ⟨i0, iss', rfl⟩ := List.exists_cons_of_ne_nil (hne (k, iss) (by simp))
    have hi0 : i0.source = k := hsrc (k, i0 :: iss') (by simp) i0 (by simp)
    have hiss' : ∀ i ∈ iss', i.source = k :=
      fun i hi => hsrc (k, i0 :: iss') (by simp) i (by simp [hi])
    have hrest_ne_k : ∀ i ∈ flattenIssues rest, i.source ≠ k := by
      intro i hi
      obtain ⟨q, hq, hiq⟩ := mem_flattenIssues rest i hi
      have : i.source = q.1 := hsrc q (by simp [hq]) i hiq
      rw [this]
      intro hqk
      exact hknotin (hqk ▸ List.mem_map_of_mem Prod.fst hq)
    rw [flattenIssues, loadIssueMap, List.foldl_append]
    have hfirst : (i0 :: iss').foldl addIssue [] = [(k, i0 :: iss')] := by
      rw [List.foldl_cons]
      have h0 : addIssue [] i0 = [(k, [i0])] := by simp [addIssue, hi0]
      rw [h0, foldl_addIssue_block iss' k [i0] [] hiss']
      simp
    rw [hfirst, foldl_addIssue_skip (flattenIssues rest) k (i0 :: iss') [] hrest_ne_k]
    rw [← loadIssueMap]
    rw [ih hrestnodup (fun q hq => hne q (by simp [hq]))
      (fun q hq => hsrc q (by simp [hq]))]

theorem loadSourceMaps_lookup (fs : RawCacheFS) (SM : List (String × SourceMapDoc)) :
    ∀ (archs : List String) (sm0 : List (String × SourceMapDoc)),
      (∀ a ∈ archs, fs.sourceMapFiles a = (alistFind a SM).map some) →
      (∀ a ∈ archs, (alistFind a SM).isSome = true) →
      ∃ sm', loadSourceMaps fs archs sm0 = some sm' ∧
        ∀ k, alistFind k sm' = if k ∈ archs then alistFind k SM else alistFind k sm0 := by
  intro archs
  induction archs with
  | nil =>
    intro sm0 _ _
    exact ⟨sm0, rfl, fun k => by simp⟩
  | cons arch rest ih =>
    intro sm0 hfile hsome
    obtain ⟨doc, hdoc⟩ := Option.isSome_iff_exists.mp (hsome arch (by simp))
    have harchfile : fs.sourceMapFiles arch = some (some doc) := by
      rw [hfile arch (by simp), hdoc]
      rfl
    obtain ⟨sm', hsm', hlook⟩ := ih (alistSet arch (tupelizeDoc doc) sm0)
      (fun a ha => hfile a (by simp [ha])) (fun a ha => hsome a (by simp [ha]))
    refine ⟨sm', ?_, ?_⟩
    · rw [loadSourceMaps, harchfile]
      exact hsm'
    · intro k
      rw [hlook k, tupelizeDoc_id, alistFind_alistSet]
      by_cases hkr : k ∈ rest
      · simp [hkr]
      · by_cases hka : arch = k
        · subst hka
          simp [hkr, hdoc]
        · have hak : ¬ k = arch := fun hh => hka hh.symm
          have hnotmem : ¬ k ∈ arch :: rest := by
            simp [List.mem_cons, hkr, hak]
          simp [hkr, hka, hnotmem]

/-- C6: round-trip — dumping an in-memory issue catalog and the
per-architecture package indexes, then loading from the dumped files,
succeeds and yields the same grouped issue catalog and, for every requested
architecture, the same (version, source) pair lists per binary package.
The hypotheses state the shape every catalog built by `_load`,
`load_missing` or the fetch has: unique source keys, non-empty issue lists,
and issues filed under their own `source`. -/
theorem cache_round_trip (st : CacheState) (archs : List String) (im : IssueMap)
    (him : st.issue_map = some im)
    (hnodup : (im.map Prod.fst).Nodup)
    (hne : ∀ p ∈ im, p.2 ≠ [])
    (hsrc : ∀ p ∈ im, ∀ i ∈ p.2, i.source = p.1)
    (harchs : ∀ a ∈ archs, (alistFind a st.source_maps).isSome = true) :
    ∃ fs st', Cache.dump st archs = some fs ∧ Cache.load fs archs = some st' ∧
      st'.issue_map = some im ∧
      ∀ a ∈ archs, alistFind a st'.source_maps = alistFind a st.source_maps := by
  have hall : archs.all (fun a => (alistFind a st.source_maps).isSome) = true :=
    List.all_eq_true.mpr harchs
  have hdump : Cache.dump st archs =
      some { issuesFile := some ((flattenIssues im).map some),
             sourceMapFiles := fun a =>
               if a ∈ archs then (alistFind a st.source_maps).map some else none } := by
    rw [Cache.dump, him, hall]
    simp
  set fs : RawCacheFS :=
    { issuesFile := some ((flattenIssues im).map some),
      sourceMapFiles := fun a =>
        if a ∈ archs then (alistFind a st.source_maps).map some else none } with hfs
  obtain ⟨sm', hsm', hlook⟩ := loadSourceMaps_lookup fs st.source_maps archs []
    (fun a ha => by simp [hfs, ha]) harchs
  refine ⟨fs, { source_maps := sm', issue_map := some (loadIssueMap (flattenIssues im)) },
    hdump, ?_, ?_, ?_⟩
  · rw [Cache.load]
    have hparse : parseIssuesFile fs.issuesFile = some (flattenIssues im) := by
      rw [hfs]
      exact sequenceLines_map_some (flattenIssues im)
    rw [hparse, hsm']
  · simp [loadIssueMap_flattenIssues im hnodup hne hsrc]
  · intro a ha
    rw [hlook a]
    simp [ha]

/-- Witness for C6 on a concrete one-architecture cache state. -/
theorem cache_round_trip_witness :
    ∃ fs st', Cache.dump stSample ["amd64"] = some fs ∧
      Cache.load fs ["amd64"] = some st' ∧
      st'.issue_map = some [("libxml2", [issueWithFix])] ∧
      ∀ a ∈ ["amd64"], alistFind a st'.source_maps = alistFind a stSample.source_maps :=
  cache_round_trip stSample ["amd64"] [("libxml2", [issueWithFix])] rfl
    (by decide) (by decide) (by decide) (by decide)

end DebAudit
